import Mathlib

/-!
Verification of the taro-bot GPT request dispatcher.

This file gives a shallow embedding of the dispatcher code in
src/gpt_requests.py (class RequestDispatcher, class TaskRequest, the
helper notification methods), the admin operations in src/main.py
(clear_gpt_queue, shutdown_bot) and the error_handler decorator in
src/errors.py, and proves or refutes the frozen specification claims
about them.

Modelling conventions:
- Python exceptions are values of PyErr.  The hierarchy that matters is:
  TelegramAPIError < Exception < BaseException, and
  asyncio.CancelledError < BaseException only (Python 3.8+), so an
  "except Exception" clause catches telegramAPIError and otherException
  but lets cancelledError propagate.
- An asyncio.Future is a write-once cell modelled by FutureState.
- The cooperative scheduler is modelled by an explicit event machine
  (DispatcherState, Ev, step): each event is one atomic slice of code
  between suspension points.
- The aiolimiter AsyncLimiter is a leaky bucket over rational time
  (LimiterState): acquiring leaks the bucket to the current instant and
  then requires level + 1 <= max_rate.
-/

namespace TaroBot

/-- Python exception values relevant to the dispatcher.  TelegramAPIError
and other Exception subclasses are caught by an except-Exception clause;
asyncio.CancelledError derives from BaseException only and is not. -/
inductive PyErr where
  | telegramAPIError (msg : String)
  | otherException (msg : String)
  | cancelledError
deriving DecidableEq, Repr

/-- Whether the value is an instance of Exception (so an
except-Exception clause catches it). -/
def PyErr.isException : PyErr → Bool
  | .cancelledError => false
  | _ => true

/-- Whether the value is an instance of aiogram TelegramAPIError. -/
def PyErr.isTelegramAPIError : PyErr → Bool
  | .telegramAPIError _ => true
  | _ => false

/-- State of an asyncio.Future: pending, resolved via set_result,
rejected via set_exception, or cancelled. -/
inductive FutureState where
  | pending
  | resolved (v : String)
  | rejected (e : PyErr)
  | cancelled
deriving DecidableEq, Repr

/-- Semantics of asyncio.Future.set_result: succeeds on a pending
future, raises InvalidStateError otherwise. -/
def setResult (f : FutureState) (v : String) : Except PyErr FutureState :=
  match f with
  | .pending => .ok (.resolved v)
  | _ => .error (.otherException "InvalidStateError")

/-- Embedding of RequestDispatcher._notify_in_progress
(src/gpt_requests.py lines 251-269).  The bot edit call may fail with
the given error; a TelegramAPIError is caught and logged as a warning,
anything else escapes the method.  Returns the escaping error, if any. -/
def notify_in_progress (sinkOutcome : Option PyErr) : Option PyErr :=
  match sinkOutcome with
  | some (.telegramAPIError _) => none
  | o => o

/-- Embedding of RequestDispatcher._notify_finished
(src/gpt_requests.py lines 271-285): the bot delete call may fail;
a TelegramAPIError is caught and logged, anything else escapes. -/
def notify_finished (sinkOutcome : Option PyErr) : Option PyErr :=
  match sinkOutcome with
  | some (.telegramAPIError _) => none
  | o => o

/-- Environment of one process_task run: the outcome of the bot call
inside _notify_in_progress, the outcome of awaiting func_to_call, and
the outcome of the bot call inside _notify_finished.  none / .ok means
the call returned normally. -/
structure ProcEnv where
  inProgressSink : Option PyErr
  workOutcome : Except PyErr String
  finishedSink : Option PyErr
deriving Repr

/-- Result of one process_task run: the final state of the future of the
task, whether the task is still in active_requests afterwards, the
exception escaping process_task if any (only a non-Exception such as
CancelledError can escape the except-Exception clause), and the errors
logged by the except clause. -/
structure ProcResult where
  future : FutureState
  stillActive : Bool
  escaped : Option PyErr
  logged : List PyErr
deriving DecidableEq, Repr


/-- The except/finally tail of process_task: the except-Exception clause
catches and logs Exception instances; a non-Exception (CancelledError)
propagates; the finally clause discards the task from active_requests in
both cases. -/
def processTaskHandler (e : PyErr) (fut : FutureState) : ProcResult :=
  if e.isException then ⟨fut, false, none, [e]⟩ else ⟨fut, false, some e, []⟩

/-- Embedding of RequestDispatcher.process_task
(src/gpt_requests.py lines 133-150).  The try body runs
_notify_in_progress, awaits func_to_call, calls future.set_result on
success, then _notify_finished; any Exception raised in the body is
caught and logged (and nothing else is done with it: in particular the
future is not settled); finally the task is discarded from
active_requests. -/
def process_task (env : ProcEnv) (fut : FutureState) : ProcResult :=
  match notify_in_progress env.inProgressSink with
  | some e => processTaskHandler e fut
  | none =>
    match env.workOutcome with
    | .error e => processTaskHandler e fut
    | .ok v =>
      match setResult fut v with
      | .error e => processTaskHandler e fut
      | .ok fut2 =>
        match notify_finished env.finishedSink with
        | some e => processTaskHandler e fut2
        | none => ⟨fut2, false, none, []⟩

/-- Embedding of the message_id computation at the start of
RequestDispatcher.add_request (src/gpt_requests.py lines 184-197): the
bot send_message call either returns a message id, or raises; any
Exception is caught, logged, and replaced by a dummy message with
message_id 0 so that admission proceeds; a non-Exception
(CancelledError) escapes, aborting add_request (result none). -/
def add_request_msg_id (sendOutcome : Except PyErr Nat) : Option Nat :=
  match sendOutcome with
  | .ok mid => some mid
  | .error e => if e.isException then some 0 else none

/-- State of one aiolimiter AsyncLimiter: the current bucket level and
the loop time of the last leak, both rational. -/
structure LimiterState where
  level : ℚ
  lastCheck : ℚ
deriving DecidableEq, Repr

/-- The drain rate of an AsyncLimiter(max_rate, time_period), called
_rate_per_sec in aiolimiter. -/
def limiterRate (max_rate time_period : ℚ) : ℚ := max_rate / time_period

/-- AsyncLimiter._leak at instant now: the level drains continuously at
rate r per time unit since the last check, clamped at zero. -/
def leakLevel (s : LimiterState) (r now : ℚ) : ℚ :=
  max (s.level - r * (now - s.lastCheck)) 0

/-- AsyncLimiter.acquire(1) completing at instant now: leak, then add
one token of usage.  It is only allowed when the leaked level plus one
does not exceed max_rate (AsyncLimiter.has_capacity); otherwise the
caller suspends and retries later. -/
def acquire (r : ℚ) (s : LimiterState) (now : ℚ) : LimiterState :=
  ⟨leakLevel s r now + 1, now⟩

/-- A list of acquisition instants is legal for a bucket with capacity
cap and drain rate r from state s: time is monotone (the event loop
clock never goes backwards) and every acquisition passes has_capacity
at its instant. -/
def legalTrace (cap r : ℚ) : LimiterState → List ℚ → Bool
  | _, [] => true
  | s, t :: ts =>
    decide (s.lastCheck ≤ t) && decide (leakLevel s r t + 1 ≤ cap) &&
      legalTrace cap r (acquire r s t) ts

/-- Number of instants of the list that fall in the closed window
[a, b]. -/
def countWindow (a b : ℚ) (ts : List ℚ) : Nat :=
  (ts.filter (fun t => decide (a ≤ t) && decide (t ≤ b))).length

/-- One admission of the worker loop of RequestDispatcher.worker
(src/gpt_requests.py line 129): entering the async-with acquires one
token from limiter_sec at instant tSec and then one token from
limiter_hour at instant tHour; the second acquisition can suspend, so
tSec ≤ tHour. -/
structure AdmissionTimes where
  tSec : ℚ
  tHour : ℚ
deriving DecidableEq, Repr

/-- Legality of a sequence of worker-loop admissions for the two
limiters built in RequestDispatcher.__init__
(AsyncLimiter(req_per_sec, 1) and AsyncLimiter(req_per_hour, 3600)).
The worker loop is a single coroutine, so admission i+1 starts only
after admission i finished acquiring (tprev ≤ tSec). -/
def workerTrace (S H : ℚ) : LimiterState → LimiterState → ℚ → List AdmissionTimes → Bool
  | _, _, _, [] => true
  | bs, bh, tprev, ad :: ads =>
    decide (tprev ≤ ad.tSec) && decide (ad.tSec ≤ ad.tHour) &&
      decide (bs.lastCheck ≤ ad.tSec) &&
      decide (leakLevel bs (limiterRate S 1) ad.tSec + 1 ≤ S) &&
      decide (bh.lastCheck ≤ ad.tHour) &&
      decide (leakLevel bh (limiterRate H 3600) ad.tHour + 1 ≤ H) &&
      workerTrace S H (acquire (limiterRate S 1) bs ad.tSec)
        (acquire (limiterRate H 3600) bh ad.tHour) ad.tHour ads

/-- Events of the dispatcher machine.  Each event is one atomic slice of
code between suspension points of the cooperative scheduler:
- submit: RequestDispatcher.add_request puts a TaskRequest on the queue
  (the task is identified by the value of the fresh-id counter);
- dequeue: one iteration of RequestDispatcher.worker: queue.get returns
  the head, the task is added to active_requests, the limiters and the
  semaphore are acquired, process_task is spawned with create_task, and
  the async-with exits (releasing the semaphore) without awaiting the
  spawned task;
- beginWork id: the spawned process_task for id reaches the await of
  func_to_call;
- finishOk id: func_to_call returned; set_result is called and the
  finally clause discards id from active_requests;
- finishErr id: process_task raised an Exception (from func_to_call or
  a notification helper); it is caught and logged, the future is not
  settled, and the finally clause discards id from active_requests;
- clear: the admin handler clear_gpt_queue in src/main.py empties
  queue._queue and lowers queue._unfinished_tasks. -/
inductive Ev where
  | submit
  | dequeue
  | beginWork (id : Nat)
  | finishOk (id : Nat)
  | finishErr (id : Nat)
  | clear
deriving DecidableEq, Repr

/-- The dispatcher state, mirroring the fields set in
RequestDispatcher.__init__ (src/gpt_requests.py lines 106-120) plus
history/bookkeeping needed to state the claims: nextId is the fresh
task-id counter (ids are submission sequence numbers), executing is the
set of ids currently inside the func_to_call await, resolved the ids
whose future received set_result, settled the ids whose process_task
has finished (either way), admittedOrder the ids in the order the
worker dequeued them.  The two limiter fields hold the timed bucket
states; the untimed machine leaves them unchanged (their dynamics are
analysed separately with legalTrace / workerTrace). -/
structure DispatcherState where
  queue : List Nat
  sem : Nat
  maxTasks : Nat
  limiter_sec : LimiterState
  limiter_hour : LimiterState
  last_position_update : ℚ
  update_interval : ℚ
  active_requests : List Nat
  nextId : Nat
  executing : List Nat
  resolved : List Nat
  settled : List Nat
  admittedOrder : List Nat
  unfinishedTasks : Nat
deriving DecidableEq, Repr

/-- The state built by RequestDispatcher.__init__(bot, max_tasks,
req_per_sec, req_per_hour): empty queue, semaphore counter max_tasks,
fresh limiters, last_position_update 0.0, update_interval 5. -/
def initState (maxTasks : Nat) : DispatcherState :=
  ⟨[], maxTasks, maxTasks, ⟨0, 0⟩, ⟨0, 0⟩, 0, 5, [], 0, [], [], [], [], 0⟩

/-- One step of the dispatcher machine.  The dequeue event mirrors the
worker loop body exactly: the semaphore is acquired (requires a free
permit) and released again within the same slice, because the body of
the async-with only calls asyncio.create_task, which does not await the
spawned coroutine; so the permit is not held while the task executes.
Guards that are not met (empty queue, task not active, ...) mean the
corresponding coroutine is suspended or the call is a no-op. -/
def step (s : DispatcherState) : Ev → DispatcherState
  | .submit =>
    { s with queue := s.queue ++ [s.nextId], nextId := s.nextId + 1,
             unfinishedTasks := s.unfinishedTasks + 1 }
  | .dequeue =>
    match s.queue with
    | [] => s
    | h :: t =>
      if 1 ≤ s.sem then
        { s with queue := t,
                 active_requests := s.active_requests ++ [h],
                 admittedOrder := s.admittedOrder ++ [h],
                 sem := s.sem - 1 + 1,
                 unfinishedTasks := s.unfinishedTasks - 1 }
      else s
  | .beginWork id =>
    if id ∈ s.active_requests ∧ id ∉ s.executing then
      { s with executing := s.executing ++ [id] }
    else s
  | .finishOk id =>
    if id ∈ s.executing then
      { s with executing := s.executing.erase id,
               active_requests := s.active_requests.erase id,
               resolved := s.resolved ++ [id],
               settled := s.settled ++ [id] }
    else s
  | .finishErr id =>
    if id ∈ s.active_requests then
      { s with executing := s.executing.erase id,
               active_requests := s.active_requests.erase id,
               settled := s.settled ++ [id] }
    else s
  | .clear =>
    { s with queue := [],
             unfinishedTasks := s.unfinishedTasks - s.queue.length }

/-- Run the machine from the freshly constructed dispatcher. -/
def run (maxTasks : Nat) (evs : List Ev) : DispatcherState :=
  evs.foldl step (initState maxTasks)

/-- Embedding of RequestDispatcher._edit_position_message
(src/gpt_requests.py lines 228-249): the bot edit call may fail with the
given error; a TelegramAPIError is caught and logged as a warning, any
other error escapes.  Returns (escaping error, warnings logged). -/
def edit_position_message (sinkOutcome : Option PyErr) : Option PyErr × List PyErr :=
  match sinkOutcome with
  | none => (none, [])
  | some (.telegramAPIError m) => (none, [.telegramAPIError m])
  | some e => (some e, [])

/-- Result of one run of RequestDispatcher.update_positions: the
dispatcher state afterwards, the attempted position edits as
(task id, 1-based position, total) in order, the errors logged, and the
exception escaping the method (only a non-Exception can). -/
structure TickResult where
  state : DispatcherState
  edits : List (Nat × Nat × Nat)
  logged : List PyErr
  escaped : Option PyErr
deriving Repr

/-- The for-loop of RequestDispatcher.update_positions
(src/gpt_requests.py lines 215-226) over the snapshot of the queue:
each item gets a position edit attempt; an Exception raised by the
attempt is caught and logged by the per-item except clause and the loop
continues; a non-Exception (CancelledError) escapes and aborts the
loop.  The dispatcher state is threaded through unchanged because the
method only reads the queue. -/
def update_positions_loop (sink : Nat → Option PyErr) (s : DispatcherState)
    (total : Nat) : Nat → List Nat → TickResult
  | _, [] => ⟨s, [], [], none⟩
  | pos, id :: rest =>
    match edit_position_message (sink id) with
    | (none, warns) =>
      let r := update_positions_loop sink s total (pos + 1) rest
      ⟨r.state, (id, pos, total) :: r.edits, warns ++ r.logged, r.escaped⟩
    | (some e, _) =>
      if e.isException then
        let r := update_positions_loop sink s total (pos + 1) rest
        ⟨r.state, (id, pos, total) :: r.edits, e :: r.logged, r.escaped⟩
      else ⟨s, [(id, pos, total)], [], some e⟩

/-- Embedding of RequestDispatcher.update_positions: snapshot the queue
(list(self.queue._queue)), compute the total, and walk the snapshot
with 1-based positions.  The sink function gives the outcome of the bot
edit for each task id. -/
def update_positions (sink : Nat → Option PyErr) (s : DispatcherState) : TickResult :=
  update_positions_loop sink s s.queue.length 1 s.queue

/-- One tick of RequestDispatcher.periodic_status_update
(src/gpt_requests.py lines 152-161): await update_positions with every
Exception caught and logged, then sleep.  Only the resulting dispatcher
state is returned. -/
def periodic_status_tick (sink : Nat → Option PyErr) (s : DispatcherState) : DispatcherState :=
  (update_positions sink s).state

/-- Global state at shutdown time, as far as the outstanding promises
are concerned: the future of every request id, the ids whose submitting
caller (the coroutine ask_gpt_in_queue, the only caller of add_request
in the repository) is a live task blocked on await future, the ids
still queued, the ids in active_requests, and the liveness flags of the
two background tasks of the dispatcher. -/
structure BotState where
  futures : Nat → FutureState
  awaiting : List Nat
  queued : List Nat
  active : List Nat
  workerAlive : Bool
  statusUpdaterAlive : Bool

/-- The asyncio semantics of cancelling a task that is blocked on await
future: Task.cancel calls cancel on the future the task waits on, which
moves a pending future to the cancelled state (a future already settled
is unaffected). -/
def cancelIfPending : FutureState → FutureState
  | .pending => .cancelled
  | st => st

/-- Embedding of shutdown_bot (src/main.py lines 1506-1538): the worker
task is cancelled and awaited, then every remaining task of the loop is
cancelled and gathered.  The remaining tasks include the status
updater, every spawned process_task coroutine, and every caller task
blocked on await future inside ask_gpt_in_queue; cancelling such a
caller cancels the pending future it awaits. -/
def shutdown_bot (s : BotState) : BotState :=
  { s with workerAlive := false,
           statusUpdaterAlive := false,
           futures := fun id =>
             if id ∈ s.awaiting then cancelIfPending (s.futures id)
             else s.futures id }

/-- The tenacity retry loop used by error_handler when retries > 0
(src/errors.py lines 72-90): stop_after_attempt(budget),
retry_if_exception_type(Exception), reraise=True.  f gives the outcome
of the i-th call of the wrapped coroutine.  A result returns; an
Exception is retried while budget remains, the last one is re-raised; a
non-Exception (CancelledError) is not retried and propagates at once. -/
def tenacityRun {α : Type} (f : Nat → Except PyErr α) : Nat → Nat → Except PyErr α
  | i, 0 => f i
  | i, b + 1 =>
    match f i with
    | .ok v => .ok v
    | .error e => if e.isException && b ≠ 0 then tenacityRun f (i + 1) b else .error e

/-- Embedding of the error_handler decorator (src/errors.py lines
44-113) applied to a coroutine whose i-th invocation outcome is f i:
the try body runs the function (through tenacity when retries > 0); the
except-Exception clause re-raises CancelledError (which it cannot even
catch, CancelledError deriving from BaseException since Python 3.8),
logs any other exception, and either re-raises it (re_raise) or returns
default_return. -/
def error_handler {α : Type} (default_return : α) (re_raise : Bool) (retries : Nat)
    (f : Nat → Except PyErr α) : Except PyErr α :=
  let result := if retries > 0 then tenacityRun f 0 retries else f 0
  match result with
  | .ok v => .ok v
  | .error e =>
    if e.isException = false then .error e
    else if re_raise then .error e
    else .ok default_return

/-- Structural invariant of the dispatcher machine: ids are below the
fresh-id counter, the queue, active_requests and settled collections are
duplicate-free and pairwise disjoint, every executing task is active,
and every resolved task is settled. -/
structure Inv (s : DispatcherState) : Prop where
  q_lt : ∀ x ∈ s.queue, x < s.nextId
  a_lt : ∀ x ∈ s.active_requests, x < s.nextId
  st_lt : ∀ x ∈ s.settled, x < s.nextId
  q_nd : s.queue.Nodup
  a_nd : s.active_requests.Nodup
  st_nd : s.settled.Nodup
  e_nd : s.executing.Nodup
  q_a : ∀ x ∈ s.queue, x ∉ s.active_requests
  q_st : ∀ x ∈ s.queue, x ∉ s.settled
  a_st : ∀ x ∈ s.active_requests, x ∉ s.settled
  e_a : ∀ x ∈ s.executing, x ∈ s.active_requests
  r_st : ∀ x ∈ s.resolved, x ∈ s.settled

/-- Every submitted id is in exactly one of the three live collections;
this holds as long as the admin clear event does not occur. -/
def Cover (s : DispatcherState) : Prop :=
  ∀ id, id < s.nextId → id ∈ s.queue ∨ id ∈ s.active_requests ∨ id ∈ s.settled

/-- The C1 scenario: gate size 1, two submissions, the worker loop
admits both (each dequeue acquires and immediately releases the
semaphore, because the async-with body only spawns process_task), then
both spawned coroutines reach their func_to_call await. -/
def c1evs : List Ev :=
  [.submit, .submit, .dequeue, .dequeue, .beginWork 0, .beginWork 1]

/-- The C2 failing environment: the notification calls succeed and
func_to_call raises Exception("boom"). -/
def c2env : ProcEnv := ⟨none, .error (.otherException "boom"), none⟩

/-- C1: the claim states that the dispatcher holds the concurrency-gate
permit for the entire execution of work, so that the number of
simultaneously executing tasks never exceeds the gate size C.  The code
releases the semaphore as soon as process_task is spawned
(src/gpt_requests.py lines 129-130: the async-with body only calls
asyncio.create_task), so with max_tasks = 1 two submitted tasks can
both be inside their func_to_call await at once, with the semaphore
permit free.  This theorem evaluates the machine on that trace:
gate size 1, two tasks executing simultaneously, semaphore back at 1. -/
theorem c1_gate_not_held_during_work :
    (run 1 c1evs).maxTasks = 1 ∧
    (run 1 c1evs).executing.length = 2 ∧
    (run 1 c1evs).maxTasks < (run 1 c1evs).executing.length ∧
    (run 1 c1evs).sem = (run 1 c1evs).maxTasks := by
  decide

/-- C2: the claim states that a task whose work raises gets its future
rejected with that error.  In process_task (src/gpt_requests.py lines
140-150) the exception is caught and logged and the future is never
settled: after the run the future is still pending (and the task has
been discarded from active_requests), so the submitter awaits forever. -/
theorem c2_work_error_leaves_future_pending :
    (process_task c2env .pending).future = .pending ∧
    (process_task c2env .pending).stillActive = false ∧
    (process_task c2env .pending).logged = [.otherException "boom"] ∧
    (∀ e : PyErr, (process_task c2env .pending).future ≠ .rejected e) := by
  refine ⟨rfl, rfl, rfl, ?_⟩
  intro e
  simp [c2env, process_task, notify_in_progress, processTaskHandler, PyErr.isException]

/-- Helper for C10: when every invocation of the wrapped coroutine
raises the same Exception, the tenacity loop re-raises it. -/
theorem tenacityRun_const_error {α : Type} (f : Nat → Except PyErr α) (e : PyErr)
    (hf : ∀ i, f i = .error e) : ∀ b i, tenacityRun f i b = .error e := by
  intro b
  induction b with
  | zero => intro i; simp [tenacityRun, hf]
  | succ b ih =>
    intro i
    rcases Nat.eq_zero_or_pos b with hb | hb
    · subst hb
      simp [tenacityRun, hf]
    · simp only [tenacityRun, hf, Nat.pos_iff_ne_zero.mp hb]
      split
      · exact ih (i + 1)
      · rfl

/-- C10: the error_handler decorator never converts CancelledError into
the default return value: a CancelledError raised by the coroutine is
re-raised to the caller (both with and without tenacity retries), while
a run that ends in any other exception yields default_return, or
re-raises when re_raise is set, and a successful first call returns its
value unchanged. -/
theorem c10_error_handler_cancellation {α : Type} (d : α) (rr : Bool) (n : Nat)
    (f : Nat → Except PyErr α) :
    (f 0 = .error .cancelledError → error_handler d rr n f = .error .cancelledError) ∧
    (∀ e : PyErr, e.isException = true → (∀ i, f i = .error e) →
      error_handler d rr n f = if rr then .error e else .ok d) ∧
    (∀ v : α, f 0 = .ok v → error_handler d rr n f = .ok v) := by
  refine ⟨?_, ?_, ?_⟩
  · intro h0
    cases n with
    | zero => simp [error_handler, h0, PyErr.isException]
    | succ m => simp [error_handler, tenacityRun, h0, PyErr.isException]
  · intro e he hf
    have hrun : (if n > 0 then tenacityRun f 0 n else f 0) = .error e := by
      split
      · exact tenacityRun_const_error f e hf n 0
      · exact hf 0
    simp only [error_handler, hrun]
    simp [he]
  · intro v h0
    cases n with
    | zero => simp [error_handler, h0]
    | succ m => simp [error_handler, tenacityRun, h0]

/-- C10 witness: concrete instances of the three conjuncts. -/
theorem c10_witness :
    error_handler "dflt" false 3 (fun _ => (.error .cancelledError : Except PyErr String)) =
      .error .cancelledError ∧
    error_handler "dflt" false 3 (fun _ => (.error (.otherException "x") : Except PyErr String)) =
      .ok "dflt" ∧
    error_handler "dflt" false 3 (fun _ => (.ok "v" : Except PyErr String)) = .ok "v" := by
  refine ⟨?_, ?_, ?_⟩
  · exact (c10_error_handler_cancellation "dflt" false 3 _).1 rfl
  · have := (c10_error_handler_cancellation "dflt" false 3
      (fun _ => (.error (.otherException "x") : Except PyErr String))).2.1
      (.otherException "x") rfl (fun _ => rfl)
    simpa using this
  · exact (c10_error_handler_cancellation "dflt" false 3 _).2.2 "v" rfl

/-- Helper for C6 and C8: the update_positions for-loop threads the
dispatcher state through unchanged, whatever the sink does. -/
theorem update_positions_loop_state (sink : Nat → Option PyErr) (s : DispatcherState)
    (total : Nat) : ∀ (l : List Nat) (pos : Nat),
    (update_positions_loop sink s total pos l).state = s := by
  intro l
  induction l with
  | nil => intro pos; rfl
  | cons id rest ih =>
    intro pos
    cases h : edit_position_message (sink id) with
    | mk esc warns =>
      cases esc with
      | none => simp [update_positions_loop, h, ih]
      | some e =>
        by_cases he : e.isException
        · simp [update_positions_loop, h, he, ih]
        · simp [update_positions_loop, h, he]

/-- Helper for C6: when the sink only ever fails with TelegramAPIError
(the exception type aiogram raises for API and network failures), every
queued item gets its position edit attempted, in queue order, and
nothing escapes the loop. -/
theorem update_positions_loop_telegram (f : Nat → Option String) (s : DispatcherState)
    (total : Nat) : ∀ (l : List Nat) (pos : Nat),
    ((update_positions_loop (fun id => (f id).map PyErr.telegramAPIError) s total pos l).edits.map
        (fun x => x.1)) = l ∧
    (update_positions_loop (fun id => (f id).map PyErr.telegramAPIError) s total pos l).escaped =
      none := by
  intro l
  induction l with
  | nil => intro pos; exact ⟨rfl, rfl⟩
  | cons id rest ih =>
    intro pos
    cases h : f id with
    | none =>
      have := ih (pos + 1)
      simp [update_positions_loop, h, edit_position_message, this.1, this.2]
    | some m =>
      have := ih (pos + 1)
      simp [update_positions_loop, h, edit_position_message, this.1, this.2]

/-- C6: notification-sink failures are logged and swallowed and never
affect admission, execution, or promise resolution.  Sink failures
surface as TelegramAPIError (aiogram's base class for API and network
errors).  Conjunct 1: process_task behaves identically whether or not
the in-progress edit and the final delete fail.  Conjunct 2: with
successful work the future is resolved with the work result even if
both notifications fail.  Conjunct 3: a failing edit for one queued
item does not stop the position updates of the other items in the same
update_positions tick, and the tick leaves the dispatcher state
unchanged.  Conjunct 4: if sending the enqueued message fails,
add_request proceeds with a dummy message id 0. -/
theorem c6_notification_failures_harmless :
    (∀ (m1 m2 : String) (w : Except PyErr String) (fut : FutureState),
      process_task ⟨some (.telegramAPIError m1), w, some (.telegramAPIError m2)⟩ fut =
        process_task ⟨none, w, none⟩ fut) ∧
    (∀ (m1 m2 v : String),
      process_task ⟨some (.telegramAPIError m1), .ok v, some (.telegramAPIError m2)⟩ .pending =
        ⟨.resolved v, false, none, []⟩) ∧
    (∀ (f : Nat → Option String) (s : DispatcherState),
      (update_positions (fun id => (f id).map PyErr.telegramAPIError) s).state = s ∧
      ((update_positions (fun id => (f id).map PyErr.telegramAPIError) s).edits.map
          (fun x => x.1)) = s.queue ∧
      (update_positions (fun id => (f id).map PyErr.telegramAPIError) s).escaped = none) ∧
    (∀ m : String, add_request_msg_id (.error (.telegramAPIError m)) = some 0) := by
  refine ⟨fun m1 m2 w fut => rfl, fun m1 m2 v => rfl, ?_, fun m => rfl⟩
  intro f s
  refine ⟨update_positions_loop_state _ s _ s.queue 1, ?_, ?_⟩
  · exact (update_positions_loop_telegram f s s.queue.length s.queue 1).1
  · exact (update_positions_loop_telegram f s s.queue.length s.queue 1).2

/-- C8: one tick of the periodic status broadcaster only reads a
snapshot of the queue and pushes notifications; it leaves every field
of the dispatcher unchanged, whatever the sink outcomes are. -/
theorem c8_broadcaster_frame (sink : Nat → Option PyErr) (s : DispatcherState) :
    periodic_status_tick sink s = s ∧
    (update_positions sink s).state = s ∧
    (update_positions sink s).state.queue = s.queue ∧
    (update_positions sink s).state.active_requests = s.active_requests ∧
    (update_positions sink s).state.sem = s.sem ∧
    (update_positions sink s).state.limiter_sec = s.limiter_sec ∧
    (update_positions sink s).state.limiter_hour = s.limiter_hour ∧
    (update_positions sink s).state.last_position_update = s.last_position_update ∧
    (update_positions sink s).state.unfinishedTasks = s.unfinishedTasks := by
  have h : (update_positions sink s).state = s :=
    update_positions_loop_state sink s s.queue.length s.queue 1
  exact ⟨h, h, by rw [h], by rw [h], by rw [h], by rw [h], by rw [h], by rw [h], by rw [h]⟩

/-- The freshly constructed dispatcher satisfies the structural
invariant. -/
theorem inv_init (mt : Nat) : Inv (initState mt) := by
  refine ⟨?_, ?_, ?_, ?_, ?_, ?_, ?_, ?_, ?_, ?_, ?_, ?_⟩ <;> simp [initState]

/-- Every machine step preserves the structural invariant. -/
theorem inv_step (s : DispatcherState) (e : Ev) (h : Inv s) : Inv (step s e) := by
  cases e with
  | submit =>
    have hstep : step s .submit =
        { s with queue := s.queue ++ [s.nextId], nextId := s.nextId + 1,
                 unfinishedTasks := s.unfinishedTasks + 1 } := rfl
    rw [hstep]
    refine ⟨?_, ?_, ?_, ?_, ?_, ?_, ?_, ?_, ?_, ?_, ?_, ?_⟩
    · intro x hx
      rcases List.mem_append.mp hx with hx | hx
      · exact Nat.lt_succ_of_lt (h.q_lt x hx)
      · rw [List.mem_singleton.mp hx]; exact Nat.lt_succ_self _
    · exact fun x hx => Nat.lt_succ_of_lt (h.a_lt x hx)
    · exact fun x hx => Nat.lt_succ_of_lt (h.st_lt x hx)
    · rw [List.nodup_append]
      refine ⟨h.q_nd, List.nodup_singleton _, ?_⟩
      intro a ha hb
      rw [List.mem_singleton.mp hb] at ha
      exact absurd (h.q_lt _ ha) (lt_irrefl _)
    · exact h.a_nd
    · exact h.st_nd
    · exact h.e_nd
    · intro x hx
      rcases List.mem_append.mp hx with hx | hx
      · exact h.q_a x hx
      · rw [List.mem_singleton.mp hx]
        intro hmem
        exact absurd (h.a_lt _ hmem) (lt_irrefl _)
    · intro x hx
      rcases List.mem_append.mp hx with hx | hx
      · exact h.q_st x hx
      · rw [List.mem_singleton.mp hx]
        intro hmem
        exact absurd (h.st_lt _ hmem) (lt_irrefl _)
    · exact h.a_st
    · exact h.e_a
    · exact h.r_st
  | dequeue =>
    rcases hq : s.queue with _ | ⟨hd, tl⟩
    · simpa [step, hq] using h
    · by_cases hsem : 1 ≤ s.sem
      · have hstep : step s .dequeue =
            { s with queue := tl,
                     active_requests := s.active_requests ++ [hd],
                     admittedOrder := s.admittedOrder ++ [hd],
                     sem := s.sem - 1 + 1,
                     unfinishedTasks := s.unfinishedTasks - 1 } := by
          simp [step, hq, hsem]
        have hhd : hd ∈ s.queue := by rw [hq]; exact List.mem_cons_self _ _
        have htl : ∀ x ∈ tl, x ∈ s.queue := by
          intro x hx; rw [hq]; exact List.mem_cons_of_mem _ hx
        have hqnd : hd ∉ tl ∧ tl.Nodup := by
          have := h.q_nd; rw [hq, List.nodup_cons] at this; exact this
        rw [hstep]
        refine ⟨?_, ?_, ?_, ?_, ?_, ?_, ?_, ?_, ?_, ?_, ?_, ?_⟩
        · exact fun x hx => h.q_lt x (htl x hx)
        · intro x hx
          rcases List.mem_append.mp hx with hx | hx
          · exact h.a_lt x hx
          · rw [List.mem_singleton.mp hx]; exact h.q_lt hd hhd
        · exact h.st_lt
        · exact hqnd.2
        · rw [List.nodup_append]
          refine ⟨h.a_nd, List.nodup_singleton _, ?_⟩
          intro a ha hb
          rw [List.mem_singleton.mp hb] at ha
          exact h.q_a hd hhd ha
        · exact h.st_nd
        · exact h.e_nd
        · intro x hx
          rw [List.mem_append, List.mem_singleton]
          push_neg
          exact ⟨h.q_a x (htl x hx), fun heq => hqnd.1 (heq ▸ hx)⟩
        · exact fun x hx => h.q_st x (htl x hx)
        · intro x hx
          rcases List.mem_append.mp hx with hx | hx
          · exact h.a_st x hx
          · rw [List.mem_singleton.mp hx]; exact h.q_st hd hhd
        · exact fun x hx => List.mem_append_left _ (h.e_a x hx)
        · exact h.r_st
      · simpa [step, hq, hsem] using h
  | beginWork id =>
    by_cases hc : id ∈ s.active_requests ∧ id ∉ s.executing
    · have hstep : step s (.beginWork id) =
          { s with executing := s.executing ++ [id] } := by simp [step, hc.1, hc.2]
      rw [hstep]
      refine ⟨h.q_lt, h.a_lt, h.st_lt, h.q_nd, h.a_nd, h.st_nd, ?_, h.q_a, h.q_st,
        h.a_st, ?_, h.r_st⟩
      · rw [List.nodup_append]
        refine ⟨h.e_nd, List.nodup_singleton _, ?_⟩
        intro a ha hb
        rw [List.mem_singleton.mp hb] at ha
        exact hc.2 ha
      · intro x hx
        rcases List.mem_append.mp hx with hx | hx
        · exact h.e_a x hx
        · rw [List.mem_singleton.mp hx]; exact hc.1
    · simpa [step, hc] using h
  | finishOk id =>
    by_cases hc : id ∈ s.executing
    · have hida : id ∈ s.active_requests := h.e_a id hc
      have hstep : step s (.finishOk id) =
          { s with executing := s.executing.erase id,
                   active_requests := s.active_requests.erase id,
                   resolved := s.resolved ++ [id],
                   settled := s.settled ++ [id] } := by simp [step, hc]
      rw [hstep]
      refine ⟨h.q_lt, ?_, ?_, h.q_nd, ?_, ?_, ?_, ?_, ?_, ?_, ?_, ?_⟩
      · exact fun x hx => h.a_lt x (List.mem_of_mem_erase hx)
      · intro x hx
        rcases List.mem_append.mp hx with hx | hx
        · exact h.st_lt x hx
        · rw [List.mem_singleton.mp hx]; exact h.a_lt id hida
      · exact h.a_nd.erase id
      · rw [List.nodup_append]
        refine ⟨h.st_nd, List.nodup_singleton _, ?_⟩
        intro a ha hb
        rw [List.mem_singleton.mp hb] at ha
        exact h.a_st id hida ha
      · exact h.e_nd.erase id
      · intro x hx hmem
        exact h.q_a x hx (List.mem_of_mem_erase hmem)
      · intro x hx
        rw [List.mem_append, List.mem_singleton]
        push_neg
        refine ⟨h.q_st x hx, fun heq => h.q_a x hx (heq ▸ hida)⟩
      · intro x hx
        have hxa : x ≠ id ∧ x ∈ s.active_requests := (h.a_nd.mem_erase_iff).mp hx
        rw [List.mem_append, List.mem_singleton]
        push_neg
        exact ⟨h.a_st x hxa.2, hxa.1⟩
      · intro x hx
        have hxe : x ≠ id ∧ x ∈ s.executing := (h.e_nd.mem_erase_iff).mp hx
        exact (List.mem_erase_of_ne hxe.1).mpr (h.e_a x hxe.2)
      · intro x hx
        rcases List.mem_append.mp hx with hx | hx
        · exact List.mem_append_left _ (h.r_st x hx)
        · exact List.mem_append_right _ hx
    · simpa [step, hc] using h
  | finishErr id =>
    by_cases hc : id ∈ s.active_requests
    · have hstep : step s (.finishErr id) =
          { s with executing := s.executing.erase id,
                   active_requests := s.active_requests.erase id,
                   settled := s.settled ++ [id] } := by simp [step, hc]
      rw [hstep]
      refine ⟨h.q_lt, ?_, ?_, h.q_nd, ?_, ?_, ?_, ?_, ?_, ?_, ?_, ?_⟩
      · exact fun x hx => h.a_lt x (List.mem_of_mem_erase hx)
      · intro x hx
        rcases List.mem_append.mp hx with hx | hx
        · exact h.st_lt x hx
        · rw [List.mem_singleton.mp hx]; exact h.a_lt id hc
      · exact h.a_nd.erase id
      · rw [List.nodup_append]
        refine ⟨h.st_nd, List.nodup_singleton _, ?_⟩
        intro a ha hb
        rw [List.mem_singleton.mp hb] at ha
        exact h.a_st id hc ha
      · exact h.e_nd.erase id
      · intro x hx hmem
        exact h.q_a x hx (List.mem_of_mem_erase hmem)
      · intro x hx
        rw [List.mem_append, List.mem_singleton]
        push_neg
        refine ⟨h.q_st x hx, fun heq => h.q_a x hx (heq ▸ hc)⟩
      · intro x hx
        have hxa : x ≠ id ∧ x ∈ s.active_requests := (h.a_nd.mem_erase_iff).mp hx
        rw [List.mem_append, List.mem_singleton]
        push_neg
        exact ⟨h.a_st x hxa.2, hxa.1⟩
      · intro x hx
        have hxe : x ≠ id ∧ x ∈ s.executing := (h.e_nd.mem_erase_iff).mp hx
        exact (List.mem_erase_of_ne hxe.1).mpr (h.e_a x hxe.2)
      · exact fun x hx => List.mem_append_left _ (h.r_st x hx)
    · simpa [step, hc] using h
  | clear =>
    have hstep : step s .clear =
        { s with queue := [],
                 unfinishedTasks := s.unfinishedTasks - s.queue.length } := rfl
    rw [hstep]
    refine ⟨?_, h.a_lt, h.st_lt, List.nodup_nil, h.a_nd, h.st_nd, h.e_nd, ?_, ?_,
      h.a_st, h.e_a, h.r_st⟩
    · intro x hx; exact absurd hx (List.not_mem_nil x)
    · intro x hx; exact absurd hx (List.not_mem_nil x)
    · intro x hx; exact absurd hx (List.not_mem_nil x)

/-- The structural invariant holds along any run. -/
theorem inv_foldl : ∀ (evs : List Ev) (s : DispatcherState), Inv s → Inv (evs.foldl step s)
  | [], _, h => h
  | e :: evs, s, h => inv_foldl evs (step s e) (inv_step s e h)

/-- The structural invariant holds in every reachable state. -/
theorem inv_run (mt : Nat) (evs : List Ev) : Inv (run mt evs) :=
  inv_foldl evs (initState mt) (inv_init mt)

/-- A non-clear step preserves coverage: every submitted id stays in
one of the queue, the active set, or the settled list. -/
theorem cover_step (s : DispatcherState) (e : Ev) (hne : e ≠ Ev.clear) (hc : Cover s) :
    Cover (step s e) := by
  cases e with
  | submit =>
    intro id hid
    have hid2 : id < s.nextId + 1 := hid
    rcases Nat.lt_succ_iff_lt_or_eq.mp hid2 with hlt | heq
    · rcases hc id hlt with hm | hm | hm
      · exact Or.inl (List.mem_append_left _ hm)
      · exact Or.inr (Or.inl hm)
      · exact Or.inr (Or.inr hm)
    · exact Or.inl (List.mem_append_right _ (by rw [heq]; exact List.mem_singleton_self _))
  | dequeue =>
    rcases hq : s.queue with _ | ⟨hd, tl⟩
    · simpa [step, hq] using hc
    · by_cases hsem : 1 ≤ s.sem
      · have hstep : step s .dequeue =
            { s with queue := tl,
                     active_requests := s.active_requests ++ [hd],
                     admittedOrder := s.admittedOrder ++ [hd],
                     sem := s.sem - 1 + 1,
                     unfinishedTasks := s.unfinishedTasks - 1 } := by
          simp [step, hq, hsem]
        rw [hstep]
        intro id hid
        rcases hc id hid with hm | hm | hm
        · rw [hq] at hm
          rcases List.mem_cons.mp hm with heq | hm
          · exact Or.inr (Or.inl (List.mem_append_right _ (by rw [heq]; exact List.mem_singleton_self _)))
          · exact Or.inl hm
        · exact Or.inr (Or.inl (List.mem_append_left _ hm))
        · exact Or.inr (Or.inr hm)
      · simpa [step, hq, hsem] using hc
  | beginWork j =>
    by_cases hcnd : j ∈ s.active_requests ∧ j ∉ s.executing
    · have hstep : step s (.beginWork j) =
          { s with executing := s.executing ++ [j] } := by simp [step, hcnd.1, hcnd.2]
      rw [hstep]
      exact hc
    · simpa [step, hcnd] using hc
  | finishOk j =>
    by_cases hcnd : j ∈ s.executing
    · have hstep : step s (.finishOk j) =
          { s with executing := s.executing.erase j,
                   active_requests := s.active_requests.erase j,
                   resolved := s.resolved ++ [j],
                   settled := s.settled ++ [j] } := by simp [step, hcnd]
      rw [hstep]
      intro id hid
      rcases hc id hid with hm | hm | hm
      · exact Or.inl hm
      · by_cases heq : id = j
        · exact Or.inr (Or.inr (List.mem_append_right _ (by rw [heq]; exact List.mem_singleton_self _)))
        · exact Or.inr (Or.inl ((List.mem_erase_of_ne heq).mpr hm))
      · exact Or.inr (Or.inr (List.mem_append_left _ hm))
    · simpa [step, hcnd] using hc
  | finishErr j =>
    by_cases hcnd : j ∈ s.active_requests
    · have hstep : step s (.finishErr j) =
          { s with executing := s.executing.erase j,
                   active_requests := s.active_requests.erase j,
                   settled := s.settled ++ [j] } := by simp [step, hcnd]
      rw [hstep]
      intro id hid
      rcases hc id hid with hm | hm | hm
      · exact Or.inl hm
      · by_cases heq : id = j
        · exact Or.inr (Or.inr (List.mem_append_right _ (by rw [heq]; exact List.mem_singleton_self _)))
        · exact Or.inr (Or.inl ((List.mem_erase_of_ne heq).mpr hm))
      · exact Or.inr (Or.inr (List.mem_append_left _ hm))
    · simpa [step, hcnd] using hc
  | clear => exact absurd rfl hne

/-- Coverage holds along any clear-free run. -/
theorem cover_foldl : ∀ (evs : List Ev) (s : DispatcherState),
    (∀ e ∈ evs, e ≠ Ev.clear) → Cover s → Cover (evs.foldl step s)
  | [], _, _, hc => hc
  | e :: evs, s, hne, hc =>
    cover_foldl evs (step s e) (fun x hx => hne x (List.mem_cons_of_mem _ hx))
      (cover_step s e (hne e (List.mem_cons_self _ _)) hc)

/-- Coverage holds in every clear-free reachable state. -/
theorem cover_run (mt : Nat) (evs : List Ev) (hnc : Ev.clear ∉ evs) : Cover (run mt evs) :=
  cover_foldl evs (initState mt) (fun _ hx heq => hnc (heq ▸ hx))
    (fun id hid => absurd hid (Nat.not_lt_zero id))

/-- A non-clear step preserves the FIFO accounting equation: the ids
dequeued so far followed by the ids still queued are exactly the
submission sequence 0, 1, ..., nextId - 1 in order. -/
theorem fifo_step (s : DispatcherState) (e : Ev) (hne : e ≠ Ev.clear)
    (hf : s.admittedOrder ++ s.queue = List.range s.nextId) :
    (step s e).admittedOrder ++ (step s e).queue = List.range (step s e).nextId := by
  cases e with
  | submit =>
    have hstep : step s .submit =
        { s with queue := s.queue ++ [s.nextId], nextId := s.nextId + 1,
                 unfinishedTasks := s.unfinishedTasks + 1 } := rfl
    rw [hstep]
    show s.admittedOrder ++ (s.queue ++ [s.nextId]) = List.range (s.nextId + 1)
    rw [← List.append_assoc, hf, List.range_succ]
  | dequeue =>
    rcases hq : s.queue with _ | ⟨hd, tl⟩
    · simpa [step, hq] using hf
    · by_cases hsem : 1 ≤ s.sem
      · have hstep : step s .dequeue =
            { s with queue := tl,
                     active_requests := s.active_requests ++ [hd],
                     admittedOrder := s.admittedOrder ++ [hd],
                     sem := s.sem - 1 + 1,
                     unfinishedTasks := s.unfinishedTasks - 1 } := by
          simp [step, hq, hsem]
        rw [hstep]
        show (s.admittedOrder ++ [hd]) ++ tl = List.range s.nextId
        rw [List.append_assoc, List.singleton_append, ← hq, hf]
      · simpa [step, hq, hsem] using hf
  | beginWork j =>
    by_cases hcnd : j ∈ s.active_requests ∧ j ∉ s.executing
    · simpa [step, hcnd.1, hcnd.2] using hf
    · simpa [step, hcnd] using hf
  | finishOk j =>
    by_cases hcnd : j ∈ s.executing
    · simpa [step, hcnd] using hf
    · simpa [step, hcnd] using hf
  | finishErr j =>
    by_cases hcnd : j ∈ s.active_requests
    · simpa [step, hcnd] using hf
    · simpa [step, hcnd] using hf
  | clear => exact absurd rfl hne

/-- The FIFO accounting equation holds along any clear-free run. -/
theorem fifo_foldl : ∀ (evs : List Ev) (s : DispatcherState),
    (∀ e ∈ evs, e ≠ Ev.clear) →
    s.admittedOrder ++ s.queue = List.range s.nextId →
    (evs.foldl step s).admittedOrder ++ (evs.foldl step s).queue =
      List.range (evs.foldl step s).nextId
  | [], _, _, hf => hf
  | e :: evs, s, hne, hf =>
    fifo_foldl evs (step s e) (fun x hx => hne x (List.mem_cons_of_mem _ hx))
      (fifo_step s e (hne e (List.mem_cons_self _ _)) hf)

/-- C4: tasks are dequeued and admitted by the worker loop strictly in
submission order.  Task ids are the submission sequence numbers, and
after any clear-free run the list of ids in dequeue order followed by
the remaining queue equals the full submission sequence
0, ..., nextId - 1: the worker has admitted exactly the oldest
submissions, in exactly their submission order (in particular the
dequeue order is strictly increasing). -/
theorem c4_fifo_admission (mt : Nat) (evs : List Ev) (hnc : Ev.clear ∉ evs) :
    (run mt evs).admittedOrder ++ (run mt evs).queue = List.range (run mt evs).nextId ∧
    (run mt evs).admittedOrder.Pairwise (· < ·) := by
  have hf : (run mt evs).admittedOrder ++ (run mt evs).queue =
      List.range (run mt evs).nextId :=
    fifo_foldl evs (initState mt) (fun e he heq => hnc (heq ▸ he)) rfl
  refine ⟨hf, ?_⟩
  have hrange : ((run mt evs).admittedOrder ++ (run mt evs).queue).Pairwise (· < ·) := by
    rw [hf]; exact List.pairwise_lt_range _
  exact hrange.sublist (List.sublist_append_left _ _)

/-- C4 witness: three submissions, two admissions. -/
theorem c4_fifo_admission_witness :
    (run 2 [Ev.submit, Ev.submit, Ev.submit, Ev.dequeue, Ev.dequeue]).admittedOrder ++
        (run 2 [Ev.submit, Ev.submit, Ev.submit, Ev.dequeue, Ev.dequeue]).queue =
      List.range (run 2 [Ev.submit, Ev.submit, Ev.submit, Ev.dequeue, Ev.dequeue]).nextId ∧
    (run 2 [Ev.submit, Ev.submit, Ev.submit, Ev.dequeue, Ev.dequeue]).admittedOrder.Pairwise
      (· < ·) :=
  c4_fifo_admission 2 [Ev.submit, Ev.submit, Ev.submit, Ev.dequeue, Ev.dequeue] (by decide)

/-- C7: at every suspension point of a clear-free run, each live task
(submitted and not yet settled) is in exactly one of the queued
collection and the active set, and a settled task is in neither.  A
task moves from the queue to active_requests within the atomic slice in
which the worker dequeues it (queue.get returning and
active_requests.add run with no await between them), stays in
active_requests for its whole execution lifetime, and is discarded from
it by the finally clause of process_task when execution settles. -/
theorem c7_queued_xor_active (mt : Nat) (evs : List Ev) (hnc : Ev.clear ∉ evs) (id : Nat)
    (hlt : id < (run mt evs).nextId) :
    (id ∉ (run mt evs).settled →
      (id ∈ (run mt evs).queue ↔ id ∉ (run mt evs).active_requests)) ∧
    (id ∈ (run mt evs).settled →
      id ∉ (run mt evs).queue ∧ id ∉ (run mt evs).active_requests) := by
  have hinv : Inv (run mt evs) := inv_run mt evs
  have hcov : Cover (run mt evs) := cover_run mt evs hnc
  constructor
  · intro hset
    constructor
    · intro hq
      exact hinv.q_a id hq
    · intro hna
      rcases hcov id hlt with hm | hm | hm
      · exact hm
      · exact absurd hm hna
      · exact absurd hm hset
  · intro hset
    constructor
    · intro hq
      exact hinv.q_st id hq hset
    · intro ha
      exact hinv.a_st id ha hset

/-- C7 witness: after submit, submit, dequeue, task 0 is active and not
queued, task 1 is queued; neither is settled. -/
theorem c7_queued_xor_active_witness :
    (0 ∉ (run 1 [Ev.submit, Ev.submit, Ev.dequeue]).settled →
      (0 ∈ (run 1 [Ev.submit, Ev.submit, Ev.dequeue]).queue ↔
        0 ∉ (run 1 [Ev.submit, Ev.submit, Ev.dequeue]).active_requests)) ∧
    (0 ∈ (run 1 [Ev.submit, Ev.submit, Ev.dequeue]).settled →
      0 ∉ (run 1 [Ev.submit, Ev.submit, Ev.dequeue]).queue ∧
        0 ∉ (run 1 [Ev.submit, Ev.submit, Ev.dequeue]).active_requests) :=
  c7_queued_xor_active 1 [Ev.submit, Ev.submit, Ev.dequeue] (by decide) 0 (by decide)

/-- One step never brings back a task that is in none of the live
collections: the six exclusion facts are preserved by every event. -/
theorem untouched_step (id : Nat) (s : DispatcherState) (e : Ev)
    (h1 : id < s.nextId) (h2 : id ∉ s.queue) (h3 : id ∉ s.active_requests)
    (h4 : id ∉ s.executing) (h5 : id ∉ s.resolved) (h6 : id ∉ s.settled) :
    id < (step s e).nextId ∧ id ∉ (step s e).queue ∧ id ∉ (step s e).active_requests ∧
      id ∉ (step s e).executing ∧ id ∉ (step s e).resolved ∧ id ∉ (step s e).settled := by
  cases e with
  | submit =>
    refine ⟨Nat.lt_succ_of_lt h1, ?_, h3, h4, h5, h6⟩
    intro hmem
    rcases List.mem_append.mp hmem with hm | hm
    · exact h2 hm
    · rw [List.mem_singleton.mp hm] at h1
      exact absurd h1 (lt_irrefl _)
  | dequeue =>
    rcases hq : s.queue with _ | ⟨hd, tl⟩
    · simp only [step, hq]
      exact ⟨h1, by rw [hq] at h2; exact h2, h3, h4, h5, h6⟩
    · by_cases hsem : 1 ≤ s.sem
      · have hstep : step s .dequeue =
            { s with queue := tl,
                     active_requests := s.active_requests ++ [hd],
                     admittedOrder := s.admittedOrder ++ [hd],
                     sem := s.sem - 1 + 1,
                     unfinishedTasks := s.unfinishedTasks - 1 } := by
          simp [step, hq, hsem]
        rw [hstep]
        have hne : id ≠ hd := by
          intro heq
          rw [hq] at h2
          exact h2 (heq ▸ List.mem_cons_self hd tl)
        refine ⟨h1, ?_, ?_, h4, h5, h6⟩
        · intro hmem
          rw [hq] at h2
          exact h2 (List.mem_cons_of_mem _ hmem)
        · intro hmem
          rcases List.mem_append.mp hmem with hm | hm
          · exact h3 hm
          · exact hne (List.mem_singleton.mp hm)
      · simp only [step, hq, if_neg hsem]
        exact ⟨h1, by rw [hq] at h2; exact h2, h3, h4, h5, h6⟩
  | beginWork j =>
    by_cases hcnd : j ∈ s.active_requests ∧ j ∉ s.executing
    · have hstep : step s (.beginWork j) =
          { s with executing := s.executing ++ [j] } := by simp [step, hcnd.1, hcnd.2]
      rw [hstep]
      refine ⟨h1, h2, h3, ?_, h5, h6⟩
      intro hmem
      rcases List.mem_append.mp hmem with hm | hm
      · exact h4 hm
      · exact h3 ((List.mem_singleton.mp hm) ▸ hcnd.1)
    · simpa [step, hcnd] using ⟨h1, h2, h3, h4, h5, h6⟩
  | finishOk j =>
    by_cases hcnd : j ∈ s.executing
    · have hstep : step s (.finishOk j) =
          { s with executing := s.executing.erase j,
                   active_requests := s.active_requests.erase j,
                   resolved := s.resolved ++ [j],
                   settled := s.settled ++ [j] } := by simp [step, hcnd]
      rw [hstep]
      have hne : id ≠ j := fun heq => h4 (heq ▸ hcnd)
      refine ⟨h1, h2, ?_, ?_, ?_, ?_⟩
      · intro hmem; exact h3 (List.mem_of_mem_erase hmem)
      · intro hmem; exact h4 (List.mem_of_mem_erase hmem)
      · intro hmem
        rcases List.mem_append.mp hmem with hm | hm
        · exact h5 hm
        · exact hne (List.mem_singleton.mp hm)
      · intro hmem
        rcases List.mem_append.mp hmem with hm | hm
        · exact h6 hm
        · exact hne (List.mem_singleton.mp hm)
    · simpa [step, hcnd] using ⟨h1, h2, h3, h4, h5, h6⟩
  | finishErr j =>
    by_cases hcnd : j ∈ s.active_requests
    · have hstep : step s (.finishErr j) =
          { s with executing := s.executing.erase j,
                   active_requests := s.active_requests.erase j,
                   settled := s.settled ++ [j] } := by simp [step, hcnd]
      rw [hstep]
      have hne : id ≠ j := fun heq => h3 (heq ▸ hcnd)
      refine ⟨h1, h2, ?_, ?_, h5, ?_⟩
      · intro hmem; exact h3 (List.mem_of_mem_erase hmem)
      · intro hmem; exact h4 (List.mem_of_mem_erase hmem)
      · intro hmem
        rcases List.mem_append.mp hmem with hm | hm
        · exact h6 hm
        · exact hne (List.mem_singleton.mp hm)
    · simpa [step, hcnd] using ⟨h1, h2, h3, h4, h5, h6⟩
  | clear =>
    exact ⟨h1, List.not_mem_nil id, h3, h4, h5, h6⟩

/-- A task in none of the live collections is never settled or resolved
by any later run. -/
theorem untouched_foldl (id : Nat) : ∀ (evs : List Ev) (s : DispatcherState),
    id < s.nextId → id ∉ s.queue → id ∉ s.active_requests → id ∉ s.executing →
    id ∉ s.resolved → id ∉ s.settled →
    id < (evs.foldl step s).nextId ∧ id ∉ (evs.foldl step s).queue ∧
      id ∉ (evs.foldl step s).active_requests ∧ id ∉ (evs.foldl step s).executing ∧
      id ∉ (evs.foldl step s).resolved ∧ id ∉ (evs.foldl step s).settled
  | [], _, h1, h2, h3, h4, h5, h6 => ⟨h1, h2, h3, h4, h5, h6⟩
  | e :: evs, s, h1, h2, h3, h4, h5, h6 => by
    obtain ⟨g1, g2, g3, g4, g5, g6⟩ := untouched_step id s e h1 h2 h3 h4 h5 h6
    exact untouched_foldl id evs (step s e) g1 g2 g3 g4 g5 g6

/-- C9: the admin clear-queue operation removes every queued task from
the dispatcher queue without settling it.  The clear step empties the
queue and leaves the resolved and settled lists untouched (no future is
resolved or rejected by it, and nothing in the repository ever rejects
a future), and a task that was queued at the moment of the clear is
never resolved, settled, re-queued or activated by any later events:
its submitter waits on a promise that is never fulfilled. -/
theorem c9_clear_queue_orphans (mt : Nat) (evs1 evs2 : List Ev) (id : Nat)
    (hid : id ∈ (run mt evs1).queue) :
    (step (run mt evs1) Ev.clear).queue = [] ∧
    (step (run mt evs1) Ev.clear).resolved = (run mt evs1).resolved ∧
    (step (run mt evs1) Ev.clear).settled = (run mt evs1).settled ∧
    id ∉ (run mt (evs1 ++ Ev.clear :: evs2)).resolved ∧
    id ∉ (run mt (evs1 ++ Ev.clear :: evs2)).settled ∧
    id ∉ (run mt (evs1 ++ Ev.clear :: evs2)).queue ∧
    id ∉ (run mt (evs1 ++ Ev.clear :: evs2)).active_requests := by
  have hinv : Inv (run mt evs1) := inv_run mt evs1
  have h1 : id < (run mt evs1).nextId := hinv.q_lt id hid
  have h3 : id ∉ (run mt evs1).active_requests := hinv.q_a id hid
  have h4 : id ∉ (run mt evs1).executing := fun hm => h3 (hinv.e_a id hm)
  have h6 : id ∉ (run mt evs1).settled := hinv.q_st id hid
  have h5 : id ∉ (run mt evs1).resolved := fun hm => h6 (hinv.r_st id hm)
  have hrun : run mt (evs1 ++ Ev.clear :: evs2) =
      evs2.foldl step (step (run mt evs1) Ev.clear) := by
    simp [run, List.foldl_append]
  have hclear : (step (run mt evs1) Ev.clear).queue = [] := rfl
  have hafter := untouched_foldl id evs2 (step (run mt evs1) Ev.clear)
    h1 (by rw [hclear]; exact List.not_mem_nil id) h3 h4 h5 h6
  rw [hrun]
  exact ⟨hclear, rfl, rfl, hafter.2.2.2.2.1, hafter.2.2.2.2.2, hafter.2.1, hafter.2.2.1⟩

/-- C9 witness: two tasks submitted, both queued, the queue is cleared,
then more events occur; task 0 is never resolved. -/
theorem c9_clear_queue_orphans_witness :
    (step (run 1 [Ev.submit, Ev.submit]) Ev.clear).queue = [] ∧
    (step (run 1 [Ev.submit, Ev.submit]) Ev.clear).resolved =
      (run 1 [Ev.submit, Ev.submit]).resolved ∧
    (step (run 1 [Ev.submit, Ev.submit]) Ev.clear).settled =
      (run 1 [Ev.submit, Ev.submit]).settled ∧
    0 ∉ (run 1 ([Ev.submit, Ev.submit] ++ Ev.clear ::
      [Ev.submit, Ev.dequeue, Ev.beginWork 2, Ev.finishOk 2])).resolved ∧
    0 ∉ (run 1 ([Ev.submit, Ev.submit] ++ Ev.clear ::
      [Ev.submit, Ev.dequeue, Ev.beginWork 2, Ev.finishOk 2])).settled ∧
    0 ∉ (run 1 ([Ev.submit, Ev.submit] ++ Ev.clear ::
      [Ev.submit, Ev.dequeue, Ev.beginWork 2, Ev.finishOk 2])).queue ∧
    0 ∉ (run 1 ([Ev.submit, Ev.submit] ++ Ev.clear ::
      [Ev.submit, Ev.dequeue, Ev.beginWork 2, Ev.finishOk 2])).active_requests :=
  c9_clear_queue_orphans 1 [Ev.submit, Ev.submit]
    [Ev.submit, Ev.dequeue, Ev.beginWork 2, Ev.finishOk 2] 0 (by decide)

/-- Unfolding of legalTrace on a cons. -/
theorem legalTrace_cons (cap r : ℚ) (s : LimiterState) (t : ℚ) (ts : List ℚ) :
    legalTrace cap r s (t :: ts) = true ↔
      s.lastCheck ≤ t ∧ leakLevel s r t + 1 ≤ cap ∧
        legalTrace cap r (acquire r s t) ts = true := by
  simp [legalTrace, Bool.and_eq_true, decide_eq_true_eq, and_assoc]

/-- Unfolding of countWindow on a cons. -/
theorem countWindow_cons (a b t : ℚ) (ts : List ℚ) :
    countWindow a b (t :: ts) =
      (if a ≤ t ∧ t ≤ b then 1 else 0) + countWindow a b ts := by
  simp only [countWindow, List.filter_cons]
  by_cases h : a ≤ t ∧ t ≤ b
  · simp [h, Nat.add_comm]
  · simp [h]

/-- The leaky-bucket accounting induction: walking a legal trace while
carrying (c = number of acquisitions already seen inside the window
[a, b]) the facts that the bucket level is at least c minus what can
have leaked since a, and that c already satisfies the window bound. -/
theorem bucket_aux (cap r a b : ℚ) (hr : 0 ≤ r) :
    ∀ (ts : List ℚ) (s : LimiterState) (c : Nat),
      legalTrace cap r s ts = true →
      (0 < c → a ≤ s.lastCheck ∧ (c : ℚ) - r * (s.lastCheck - a) ≤ s.level) →
      (0 < c → (c : ℚ) ≤ cap + r * (b - a)) →
      0 < c + countWindow a b ts →
      ((c + countWindow a b ts : Nat) : ℚ) ≤ cap + r * (b - a) := by
  intro ts
  induction ts with
  | nil =>
    intro s c hleg hinv hbound hpos
    have hc : 0 < c := by simpa [countWindow] using hpos
    simpa [countWindow] using hbound hc
  | cons t ts ih =>
    intro s c hleg hinv hbound hpos
    obtain ⟨hlc, hcapok, hrest⟩ := (legalTrace_cons cap r s t ts).mp hleg
    have hleak0 : 0 ≤ leakLevel s r t := le_max_right _ _
    have hleak1 : s.level - r * (t - s.lastCheck) ≤ leakLevel s r t := le_max_left _ _
    by_cases hw : a ≤ t ∧ t ≤ b
    · have hinv2 : 0 < c + 1 →
          a ≤ (acquire r s t).lastCheck ∧
            ((c + 1 : Nat) : ℚ) - r * ((acquire r s t).lastCheck - a) ≤
              (acquire r s t).level := by
        intro _
        refine ⟨hw.1, ?_⟩
        show ((c + 1 : Nat) : ℚ) - r * (t - a) ≤ leakLevel s r t + 1
        rcases Nat.eq_zero_or_pos c with hc | hc
        · subst hc
          have : 0 ≤ r * (t - a) := mul_nonneg hr (sub_nonneg.mpr hw.1)
          push_cast
          linarith
        · obtain ⟨halc, hlev⟩ := hinv hc
          have hsplit : r * (t - a) = r * (t - s.lastCheck) + r * (s.lastCheck - a) := by
            ring
          push_cast
          linarith
      have hbound2 : 0 < c + 1 → ((c + 1 : Nat) : ℚ) ≤ cap + r * (b - a) := by
        intro _
        have hbt : 0 ≤ r * (b - t) := mul_nonneg hr (sub_nonneg.mpr hw.2)
        rcases Nat.eq_zero_or_pos c with hc | hc
        · subst hc
          have hba : 0 ≤ r * (b - a) :=
            mul_nonneg hr (sub_nonneg.mpr (le_trans hw.1 hw.2))
          push_cast
          linarith
        · obtain ⟨halc, hlev⟩ := hinv hc
          have hsplit : r * (t - a) = r * (t - s.lastCheck) + r * (s.lastCheck - a) := by
            ring
          have hsplit2 : r * (b - a) = r * (b - t) + r * (t - a) := by ring
          push_cast
          linarith
      have := ih (acquire r s t) (c + 1) hrest hinv2 hbound2 (by omega)
      rw [countWindow_cons, if_pos hw]
      have harith : c + (1 + countWindow a b ts) = (c + 1) + countWindow a b ts := by omega
      rw [harith]
      exact this
    · have hinv2 : 0 < c →
          a ≤ (acquire r s t).lastCheck ∧
            ((c : Nat) : ℚ) - r * ((acquire r s t).lastCheck - a) ≤
              (acquire r s t).level := by
        intro hc
        obtain ⟨halc, hlev⟩ := hinv hc
        refine ⟨le_trans halc hlc, ?_⟩
        show ((c : Nat) : ℚ) - r * (t - a) ≤ leakLevel s r t + 1
        have hsplit : r * (t - a) = r * (t - s.lastCheck) + r * (s.lastCheck - a) := by
          ring
        linarith
      rw [countWindow_cons, if_neg hw] at hpos ⊢
      simp only [Nat.zero_add] at hpos ⊢
      exact ih (acquire r s t) c hrest hinv2 hbound hpos

/-- The leaky-bucket window bound: any legal acquisition trace of an
AsyncLimiter with capacity cap and drain rate r puts at most
cap + r * (b - a) acquisitions inside any window [a, b]. -/
theorem bucket_window_bound (cap r a b : ℚ) (hcap : 0 ≤ cap) (hr : 0 ≤ r) (hab : a ≤ b)
    (ts : List ℚ) (s : LimiterState) (hleg : legalTrace cap r s ts = true) :
    ((countWindow a b ts : Nat) : ℚ) ≤ cap + r * (b - a) := by
  rcases Nat.eq_zero_or_pos (countWindow a b ts) with h0 | hpos
  · rw [h0]
    have : 0 ≤ r * (b - a) := mul_nonneg hr (sub_nonneg.mpr hab)
    push_cast
    linarith
  · have := bucket_aux cap r a b hr ts s 0 hleg
      (fun hc => absurd hc (lt_irrefl 0)) (fun hc => absurd hc (lt_irrefl 0))
      (by simpa using hpos)
    simpa using this

/-- Projection of a legal worker admission trace to a legal trace of
the per-second limiter. -/
theorem workerTrace_sec (S H : ℚ) : ∀ (ads : List AdmissionTimes) (bs bh : LimiterState)
    (t0 : ℚ), workerTrace S H bs bh t0 ads = true →
    legalTrace S (limiterRate S 1) bs (ads.map AdmissionTimes.tSec) = true := by
  intro ads
  induction ads with
  | nil => intro bs bh t0 hw; rfl
  | cons ad ads ih =>
    intro bs bh t0 hw
    simp only [workerTrace, Bool.and_eq_true, decide_eq_true_eq] at hw
    obtain ⟨⟨⟨⟨⟨⟨h1, h2⟩, h3⟩, h4⟩, h5⟩, h6⟩, h7⟩ := hw
    rw [List.map_cons, legalTrace_cons]
    exact ⟨h3, h4, ih _ _ _ h7⟩

/-- Projection of a legal worker admission trace to a legal trace of
the per-hour limiter. -/
theorem workerTrace_hour (S H : ℚ) : ∀ (ads : List AdmissionTimes) (bs bh : LimiterState)
    (t0 : ℚ), workerTrace S H bs bh t0 ads = true →
    legalTrace H (limiterRate H 3600) bh (ads.map AdmissionTimes.tHour) = true := by
  intro ads
  induction ads with
  | nil => intro bs bh t0 hw; rfl
  | cons ad ads ih =>
    intro bs bh t0 hw
    simp only [workerTrace, Bool.and_eq_true, decide_eq_true_eq] at hw
    obtain ⟨⟨⟨⟨⟨⟨h1, h2⟩, h3⟩, h4⟩, h5⟩, h6⟩, h7⟩ := hw
    rw [List.map_cons, legalTrace_cons]
    exact ⟨h5, h6, ih _ _ _ h7⟩

/-- C5 counterexample: the claim says that over any rolling window of
1 time-unit at most S = req_per_sec admissions occur.  With S = 2
(H = 7200) the admission schedule at instants 0, 0, 1/2 is legal for
both limiters starting from fresh buckets, yet the window [0, 1]
contains 3 > 2 admissions: the leaky bucket allows a full burst of S
on top of the S tokens drained back during the window. -/
theorem c5_rate_bound_counterexample :
    workerTrace 2 7200 ⟨0, 0⟩ ⟨0, 0⟩ 0
      [⟨0, 0⟩, ⟨0, 0⟩, ⟨1/2, 1/2⟩] = true ∧
    countWindow 0 1 ([⟨0, 0⟩, ⟨0, 0⟩, ⟨1/2, 1/2⟩].map AdmissionTimes.tSec) = 3 ∧
    ¬ (countWindow 0 1 ([⟨0, 0⟩, ⟨0, 0⟩, ⟨1/2, 1/2⟩].map AdmissionTimes.tSec) ≤ 2) := by
  refine ⟨?_, ?_, ?_⟩
  · simp [workerTrace, leakLevel, acquire, limiterRate]
    norm_num
  · simp [countWindow, List.filter]
    norm_num
  · simp [countWindow, List.filter]
    norm_num

/-- C5 amended: admissions acquire one token from each limiter and over
any rolling window [a, b] the per-second token acquisitions number at
most S + S * (b - a) (so at most 2 S in a window of length 1, not S)
and the per-hour ones at most H + (H / 3600) * (b - a); moreover
acquisition only ever waits: from any bucket state and any instant
there is a later instant at which a token is available. -/
theorem c5_rate_bound_amended (S H a b t0 : ℚ) (bs bh : LimiterState)
    (ads : List AdmissionTimes) (hS : 0 ≤ S) (hH : 0 ≤ H) (hab : a ≤ b)
    (hw : workerTrace S H bs bh t0 ads = true) :
    ((countWindow a b (ads.map AdmissionTimes.tSec) : Nat) : ℚ) ≤
      S + limiterRate S 1 * (b - a) ∧
    ((countWindow a b (ads.map AdmissionTimes.tHour) : Nat) : ℚ) ≤
      H + limiterRate H 3600 * (b - a) ∧
    (∀ (s : LimiterState) (t1 cap r : ℚ), 0 ≤ s.level → 1 ≤ cap → 0 < r →
      ∃ t2, t1 ≤ t2 ∧ s.lastCheck ≤ t2 ∧ leakLevel s r t2 + 1 ≤ cap) := by
  have hrs : 0 ≤ limiterRate S 1 := by
    simp only [limiterRate]
    positivity
  have hrh : 0 ≤ limiterRate H 3600 := by
    simp only [limiterRate]
    positivity
  refine ⟨?_, ?_, ?_⟩
  · exact bucket_window_bound S (limiterRate S 1) a b hS hrs hab _ bs
      (workerTrace_sec S H ads bs bh t0 hw)
  · exact bucket_window_bound H (limiterRate H 3600) a b hH hrh hab _ bh
      (workerTrace_hour S H ads bs bh t0 hw)
  · intro s t1 cap r hlev hcap hrpos
    refine ⟨max t1 (s.lastCheck + s.level / r), le_max_left _ _, ?_, ?_⟩
    · have : s.lastCheck ≤ s.lastCheck + s.level / r := by
        have : 0 ≤ s.level / r := div_nonneg hlev hrpos.le
        linarith
      exact le_trans this (le_max_right _ _)
    · have hbig : s.lastCheck + s.level / r ≤ max t1 (s.lastCheck + s.level / r) :=
        le_max_right _ _
      have h2 : s.level / r ≤ max t1 (s.lastCheck + s.level / r) - s.lastCheck := by
        linarith
      have hdrain : s.level ≤ r * (max t1 (s.lastCheck + s.level / r) - s.lastCheck) := by
        calc s.level = s.level / r * r := (div_mul_cancel₀ _ (ne_of_gt hrpos)).symm
          _ ≤ (max t1 (s.lastCheck + s.level / r) - s.lastCheck) * r :=
              mul_le_mul_of_nonneg_right h2 hrpos.le
          _ = r * (max t1 (s.lastCheck + s.level / r) - s.lastCheck) := mul_comm _ _
      have hle : leakLevel s r (max t1 (s.lastCheck + s.level / r)) ≤ 0 :=
        max_le (by linarith) le_rfl
      linarith

/-- C5 amended witness: a single admission at instant 0 with S = 2,
H = 7200, window [0, 1]. -/
theorem c5_rate_bound_amended_witness :
    ((countWindow 0 1 ([(⟨0, 0⟩ : AdmissionTimes)].map AdmissionTimes.tSec) : Nat) : ℚ) ≤
      2 + limiterRate 2 1 * (1 - 0) ∧
    ((countWindow 0 1 ([(⟨0, 0⟩ : AdmissionTimes)].map AdmissionTimes.tHour) : Nat) : ℚ) ≤
      7200 + limiterRate 7200 3600 * (1 - 0) ∧
    (∀ (s : LimiterState) (t1 cap r : ℚ), 0 ≤ s.level → 1 ≤ cap → 0 < r →
      ∃ t2, t1 ≤ t2 ∧ s.lastCheck ≤ t2 ∧ leakLevel s r t2 + 1 ≤ cap) :=
  c5_rate_bound_amended 2 7200 0 1 0 ⟨0, 0⟩ ⟨0, 0⟩ [⟨0, 0⟩]
    (by norm_num) (by norm_num) (by norm_num)
    (by simp [workerTrace, leakLevel, acquire, limiterRate])

/-- C3: the claim states that on shutdown every task still queued or
executing has its promise rejected with a cancellation error within
bounded time, leaving no promise unresolved.  shutdown_bot never
enumerates queued or executing items: it only cancels tasks, and a
pending future is settled (cancelled) only through a caller task that
is blocked on awaiting it.  The source reaches states in which a
queued task's future is awaited by no task: in add_request
(src/gpt_requests.py lines 208-213) the item is put on the queue and
then, whenever at least update_interval time has passed since the last
broadcast (always for the first submission, last_position_update being
initialised to 0.0 and written nowhere else), the submitter awaits the
out-of-band update_positions bot edit before the future is returned to
ask_gpt_in_queue, so at that suspension point nothing awaits the
future.  Running shutdown_bot in that window cancels the submitter
inside the bot call (the CancelledError propagates out of add_request
and error_handler re-raises it) and the queued task's future is never
cancelled nor rejected: its promise stays pending forever, against
both the claim and spec section 4.6 item 3.  This theorem evaluates
shutdown_bot on that state: request 0 is queued, no caller awaits its
pending future, and after shutdown the future is still pending. -/
theorem c3_shutdown_leaves_unawaited_promise_pending :
    (0 ∈ (⟨fun _ => .pending, [], [0], [], true, true⟩ : BotState).queued) ∧
    (shutdown_bot ⟨fun _ => .pending, [], [0], [], true, true⟩).futures 0 = .pending ∧
    (shutdown_bot ⟨fun _ => .pending, [], [0], [], true, true⟩).futures 0 ≠ .cancelled ∧
    (∀ e : PyErr,
      (shutdown_bot ⟨fun _ => .pending, [], [0], [], true, true⟩).futures 0 ≠
        .rejected e) ∧
    (shutdown_bot ⟨fun _ => .pending, [], [0], [], true, true⟩).workerAlive = false ∧
    (shutdown_bot ⟨fun _ => .pending, [], [0], [], true, true⟩).statusUpdaterAlive =
      false := by
  refine ⟨List.mem_singleton_self 0, rfl, ?_, ?_, rfl, rfl⟩
  · intro h
    exact FutureState.noConfusion h
  · intro e h
    exact FutureState.noConfusion h

end TaroBot
